import Mathlib

/-!
Verification development for the lossless-image-compression client
(`src/main.py`).  The Python program is shallowly embedded: the worker
thread `ImageCompressThread.run` becomes a pure function over an
environment describing the filesystem/codec behaviour at its failure
points, and the `MainWindow` registry (task widgets, counters,
completed-outcome list) becomes a state type with one Lean function per
Qt slot.  Machine arithmetic: Python integers are unbounded, so `Nat`
and `Int` are used directly; the compression ratio is modelled over `ℚ`
with Python's round-half-to-even semantics made explicit.
-/

/-- Task display status, mirroring the status strings of `main.py`:
`waiting` = "等待中", `compressing` = "压缩中...", `done` = "已完成",
`failed` = "压缩失败". -/
inductive Status where
  | waiting
  | compressing
  | done
  | failed
  deriving DecidableEq

/-- Image format as detected by `Image.open` (`image.format`); the save
branches in `run` distinguish JPEG/PNG/WEBP from everything else. -/
inductive Format where
  | JPEG
  | PNG
  | WEBP
  | otherFormat
  deriving DecidableEq

/-! ## Path manipulation (`os.path` on POSIX), as used by the worker -/

/-- Model of `os.path.basename`: the part of the path after the last
slash (posixpath: `p[p.rfind(sep) + 1:]`). -/
def basename (p : List Char) : List Char :=
  (p.reverse.takeWhile (fun c => c != '/')).reverse

/-- The head part `p[:i]` with `i = p.rfind(sep) + 1`, before the
trailing-slash stripping that `os.path.dirname` performs. -/
def dirnameRaw (p : List Char) : List Char :=
  (p.reverse.dropWhile (fun c => c != '/')).reverse

/-- Model of `os.path.dirname`: head part of the path; trailing slashes
are stripped unless the head is empty or consists only of slashes
(posixpath: `if head and head != sep * len(head): head = head.rstrip(sep)`).
The condition `head` nonempty and not all slashes is exactly `head.any (· != sep)`. -/
def dirname (p : List Char) : List Char :=
  let head := dirnameRaw p
  if head.any (fun c => c != '/') then (head.reverse.dropWhile (fun c => c == '/')).reverse
  else head

/-- Model of `os.path.splitext` restricted to inputs without a slash,
which is how `main.py` uses it (it is applied to `base_name`).  The
extension starts at the last dot, unless every character before that
dot is itself a dot (then there is no extension: `.bashrc`, `..`). -/
def splitext (b : List Char) : List Char × List Char :=
  let extRev := b.reverse.takeWhile (fun c => c != '.')
  if extRev.length = b.length then (b, [])
  else
    let stem := b.take (b.length - extRev.length - 1)
    if stem.any (fun c => c != '.') then (stem, b.drop (b.length - extRev.length - 1))
    else (b, [])

/-- Model of `os.path.join` for two components (posixpath: if `b` starts
with the separator, it replaces `a`; otherwise it is appended, inserting
a separator unless `a` is empty or already ends with one). -/
def joinPath (a b : List Char) : List Char :=
  if b.head? = some '/' then b
  else if a = [] ∨ a.getLast? = some '/' then a ++ b
  else a ++ '/' :: b

/-- Output path chosen by the worker (`main.py` lines 42-48):
`os.path.join(os.path.dirname(p), name + "_compressed" + ext)` where
`(name, ext) = os.path.splitext(os.path.basename(p))`. -/
def output_path (p : List Char) : List Char :=
  let base := basename p
  let ne := splitext base
  joinPath (dirname p) (ne.1 ++ "_compressed".toList ++ ne.2)

/-- String-level wrapper of `output_path` used by the worker model. -/
def outputPathS (p : String) : String :=
  String.mk (output_path p.toList)

/-! ## Compression ratio (`round((1 - compressed/original) * 100, 2)`) -/

/-- Python's `round` to an integer: round half to even (banker's
rounding), modelled exactly over `ℚ`. -/
def pyRoundHalfEven (q : ℚ) : ℤ :=
  let f := ⌊q⌋
  let r := q - f
  if r < 1/2 then f
  else if 1/2 < r then f + 1
  else if f % 2 = 0 then f else f + 1

/-- Python's `round(q, 2)`: round half to even at two decimal places. -/
def pyRound2 (q : ℚ) : ℚ :=
  (pyRoundHalfEven (q * 100) : ℚ) / 100

/-- Compression ratio computed by the worker (`main.py` line 70):
`round((1 - compressed_size / original_size) * 100, 2)`. -/
def compression_ratio (original_size compressed_size : ℕ) : ℚ :=
  pyRound2 ((1 - (compressed_size : ℚ) / (original_size : ℚ)) * 100)

/-- Ratio formula as worded by the specification, for refinement
comparison with the implementation's formula: the spec text says the
outcome "holds ... compression ratio
(`round((1 - compressedSize/originalSize) * 100, 2)`)". -/
def specRatio (originalSize compressedSize : ℕ) : ℚ :=
  pyRound2 ((1 - (compressedSize : ℚ) / (originalSize : ℚ)) * 100)

/-! ## The worker thread `ImageCompressThread.run` -/

/-- A successful outcome dictionary (`result = {...}` in `run`). -/
structure CompressResult where
  original_path : String
  original_size : ℕ
  compressed_size : ℕ
  ratio : ℚ
  out_path : String
  fmt : Format
  deriving DecidableEq

/-- Signals emitted by the worker: `progress_update = pyqtSignal(str, int)`
and `compress_finished = pyqtSignal(str, dict)`; the dict is `None` on
failure, hence the `Option`. -/
inductive Event where
  | progress_update (path : String) (value : ℕ)
  | compress_finished (path : String) (result : Option CompressResult)
  deriving DecidableEq

/-- Environment of one worker execution: the behaviour of the
filesystem and codec at each fallible step of `run`.
`originalSize = none` models `os.path.getsize` raising (missing source
file); `imageFormat = none` models `Image.open` raising (unreadable or
non-image data); `saveOk = false` models `image.save` raising (codec or
I/O failure; the save is modelled as atomic: it writes the output file
exactly when it succeeds); `compressedSize` is the size of the output
file that a successful save produces. -/
structure Env where
  originalSize : Option ℕ
  imageFormat : Option Format
  saveOk : Bool
  compressedSize : ℕ
  deriving DecidableEq

/-- The worker body (`main.py` lines 32-87): returns the list of emitted
signals and the list of files written.  Every exception inside the `try`
block lands in the `except` branch, which emits `compress_finished(path, None)`.
Steps in source order: `getsize(input)`; `Image.open`; compute
`output_path`; the simulated progress loop `for i in range(101)`;
`image.save(output_path, ...)`; `getsize(output_path)` (cannot fail:
the file was just written); the ratio computation (raises
`ZeroDivisionError` when `original_size == 0`); emit `progress_update(path, 100)`;
emit `compress_finished(path, result)`. -/
def run (image_path : String) (env : Env) : List Event × List String :=
  match env.originalSize with
  | none => ([Event.compress_finished image_path none], [])
  | some original_size =>
    match env.imageFormat with
    | none => ([Event.compress_finished image_path none], [])
    | some image_format =>
      let out := outputPathS image_path
      let prog := (List.range 101).map (fun i => Event.progress_update image_path i)
      if env.saveOk then
        if original_size = 0 then
          (prog ++ [Event.compress_finished image_path none], [out])
        else
          let result : CompressResult :=
            { original_path := image_path
              original_size := original_size
              compressed_size := env.compressedSize
              ratio := compression_ratio original_size env.compressedSize
              out_path := out
              fmt := image_format }
          (prog ++ [Event.progress_update image_path 100,
                    Event.compress_finished image_path (some result)], [out])
      else
        (prog ++ [Event.compress_finished image_path none], [])

/-- A run succeeds when it emits a `compress_finished` signal carrying a
result dictionary (not `None`). -/
def runSucceeds (image_path : String) (env : Env) : Bool :=
  (run image_path env).1.any fun e =>
    match e with
    | Event.compress_finished _ (some _) => true
    | _ => false

/-- Environments in which some step of the `try` block raises. -/
def envFails (env : Env) : Bool :=
  env.originalSize.isNone || env.imageFormat.isNone || !env.saveOk ||
    env.originalSize == some 0

/-- Well-formed environments: a zero-byte file can never be opened as an
image, so `Image.open` succeeding implies a positive original size. -/
def envWf (env : Env) : Prop :=
  env.originalSize = some 0 → env.imageFormat = none

/-- Recognizer for the terminal signal. -/
def isFinished : Event → Bool
  | Event.compress_finished _ _ => true
  | _ => false

/-- Progress values carried by the `progress_update` signals of a trace,
in emission order. -/
def progressValues (evs : List Event) : List ℕ :=
  evs.filterMap fun e =>
    match e with
    | Event.progress_update _ v => some v
    | _ => none

/-! ## The `MainWindow` registry (`image_items`, counters, slots) -/

/-- Model of `ImageItemWidget`, keeping the fields the orchestration
reads or writes.  `status` is the `self.status` attribute; `statusLabel`
is the text shown in `status_label` — the two differ after a successful
finish, because `update_result` rewrites the label to "已完成" but never
touches the attribute.  `progress` is the progress-bar value. -/
structure Widget where
  status : Status
  statusLabel : Status
  progress : ℕ
  compressed_size : ℕ
  compress_ratio : ℚ
  fmt : Option Format
  deriving DecidableEq

/-- A freshly constructed `ImageItemWidget`: status "等待中", progress
bar at 0, no result data yet ("未知" format). -/
def newWidget : Widget :=
  { status := Status.waiting
    statusLabel := Status.waiting
    progress := 0
    compressed_size := 0
    compress_ratio := 0
    fmt := none }

/-- `ImageItemWidget.update_progress`: sets the progress-bar value. -/
def widgetUpdateProgress (v : ℕ) (w : Widget) : Widget :=
  { w with progress := v }

/-- `ImageItemWidget.update_status`: sets both the attribute and the
label. -/
def widgetUpdateStatus (st : Status) (w : Widget) : Widget :=
  { w with status := st, statusLabel := st }

/-- `ImageItemWidget.update_result` on a result dict: stores the result
fields, sets the label to "已完成" and forces the progress bar to 100.
The `self.status` attribute is not assigned in this method. -/
def widgetUpdateResult (r : CompressResult) (w : Widget) : Widget :=
  { w with
    compressed_size := r.compressed_size
    compress_ratio := r.ratio
    fmt := some r.fmt
    statusLabel := Status.done
    progress := 100 }

/-- State of `MainWindow`: the insertion-ordered dict `self.image_items`
(path → widget), the thread dict (modelled by its key list), the
`completed_images` list and the three aggregate counters.  Python
integers are unbounded, hence `ℤ`. -/
structure WinState where
  image_items : List (String × Widget)
  compress_threads : List String
  completed_images : List CompressResult
  pending_count : ℤ
  processing_count : ℤ
  completed_count : ℤ
  deriving DecidableEq

/-- State after `MainWindow.__init__`: empty dicts, zero counters. -/
def initState : WinState :=
  { image_items := []
    compress_threads := []
    completed_images := []
    pending_count := 0
    processing_count := 0
    completed_count := 0 }

/-- Key membership in the ordered dict (`file_path in self.image_items`). -/
def containsKey (p : String) : List (String × Widget) → Bool
  | [] => false
  | e :: rest => e.1 == p || containsKey p rest

/-- Lookup of the widget stored under a key. -/
def lookupW (p : String) : List (String × Widget) → Option Widget
  | [] => none
  | e :: rest => if e.1 == p then some e.2 else lookupW p rest

/-- Update of a dict entry in place (`self.image_items[path]`'s widget
is mutated; the dict structure is unchanged). -/
def updateEntry (p : String) (f : Widget → Widget) :
    List (String × Widget) → List (String × Widget)
  | [] => []
  | e :: rest => if e.1 == p then (e.1, f e.2) :: rest else e :: updateEntry p f rest

/-- Body of the `add_images` loop for one path (`main.py` lines 424-447):
paths already in `image_items` are skipped; a new path gets a fresh
widget appended to the dict and `pending_count += 1`. -/
def insert_image (s : WinState) (file_path : String) : WinState :=
  if containsKey file_path s.image_items then s
  else
    { s with
      image_items := s.image_items ++ [(file_path, newWidget)]
      pending_count := s.pending_count + 1 }

/-- The entries of the dict whose widget attribute is "等待中", i.e.
those the `start_compression` loop acts on. -/
def waitingOf (l : List (String × Widget)) : List (String × Widget) :=
  l.filter fun e => e.2.status == Status.waiting

/-- The per-entry effect of the `start_compression` loop on the dict:
waiting widgets get `update_status("压缩中...")`, others are untouched. -/
def startMapped (l : List (String × Widget)) : List (String × Widget) :=
  l.map fun e =>
    if e.2.status == Status.waiting then (e.1, widgetUpdateStatus Status.compressing e.2)
    else e

/-- `MainWindow.start_compression` (lines 452-475): every widget whose
`status` attribute is "等待中" gets a thread (stored in
`compress_threads`), its status set to "压缩中..." via `update_status`,
`processing_count += 1` and `pending_count -= 1`. -/
def start_compression (s : WinState) : WinState :=
  { s with
    image_items := startMapped s.image_items
    compress_threads := s.compress_threads ++ (waitingOf s.image_items).map Prod.fst
    processing_count := s.processing_count + (waitingOf s.image_items).length
    pending_count := s.pending_count - (waitingOf s.image_items).length }

/-- `MainWindow.add_images` (lines 417-450): when the dialog returns a
nonempty path list, insert each new path and then start compression. -/
def add_images (file_paths : List String) (s : WinState) : WinState :=
  if file_paths = [] then s
  else start_compression (file_paths.foldl insert_image s)

/-- `MainWindow.update_compress_progress` (lines 477-481): guarded by
`image_path in self.image_items`; unknown paths are a no-op. -/
def update_compress_progress (image_path : String) (value : ℕ) (s : WinState) : WinState :=
  if containsKey image_path s.image_items then
    { s with image_items := updateEntry image_path (widgetUpdateProgress value) s.image_items }
  else s

/-- `MainWindow.handle_compress_finished` (lines 483-500): guarded by
`image_path in self.image_items`.  With a result dict: `update_result`,
append to `completed_images`, `completed_count += 1`.  With `None`:
`update_status("压缩失败")`.  Either way `processing_count -= 1`. -/
def handle_compress_finished (image_path : String) (result : Option CompressResult)
    (s : WinState) : WinState :=
  if containsKey image_path s.image_items then
    match result with
    | some r =>
      { s with
        image_items := updateEntry image_path (widgetUpdateResult r) s.image_items
        completed_images := s.completed_images ++ [r]
        completed_count := s.completed_count + 1
        processing_count := s.processing_count - 1 }
    | none =>
      { s with
        image_items := updateEntry image_path (widgetUpdateStatus Status.failed) s.image_items
        processing_count := s.processing_count - 1 }
  else s

/-- `MainWindow.clear_all` (lines 599-619): terminate the threads, then
empty every dict/list and reset the three counters to zero. -/
def clear_all (s : WinState) : WinState :=
  { s with
    image_items := []
    compress_threads := []
    completed_images := []
    pending_count := 0
    processing_count := 0
    completed_count := 0 }

/-- Number of tasks whose displayed status equals `st`. -/
def countLabel (st : Status) (l : List (String × Widget)) : ℕ :=
  l.countP fun e => e.2.statusLabel == st

/-- Number of dict entries stored under key `q`. -/
def countKey (q : String) (l : List (String × Widget)) : ℕ :=
  l.countP fun e => e.1 == q

/-- One GUI event-loop step.  Slots run to completion on the single Qt
main thread, so each slot invocation is one atomic transition.  A
`compress_finished` delivery refers either to a path whose widget is
currently "压缩中..." (each worker reports exactly once, for the path it
was started on) or to a path no longer tracked (a stale signal arriving
after `clear_all`). -/
inductive Step : WinState → WinState → Prop
  | add (s : WinState) (paths : List String) : Step s (add_images paths s)
  | finish (s : WinState) (p : String) (r : Option CompressResult)
      (h : lookupW p s.image_items = none ∨
        ∃ w, lookupW p s.image_items = some w ∧ w.statusLabel = Status.compressing) :
      Step s (handle_compress_finished p r s)
  | progress (s : WinState) (p : String) (v : ℕ) :
      Step s (update_compress_progress p v s)
  | clear (s : WinState) : Step s (clear_all s)

/-- States reachable from the freshly initialized window. -/
inductive Reachable : WinState → Prop
  | init : Reachable initState
  | step {s t : WinState} : Reachable s → Step s t → Reachable t

/-! ## Registry invariant: counters agree with per-task states -/

/-- Aggregate-counter invariant of the registry.  A task's observable
state is its displayed status (`statusLabel`).  The fourth part records
that the `status` attribute and the label agree on "等待中": they are
set together everywhere except `update_result`, which only moves the
label away from the waiting state. -/
def CountersInv (s : WinState) : Prop :=
  s.pending_count = countLabel Status.waiting s.image_items ∧
  s.processing_count = countLabel Status.compressing s.image_items ∧
  s.completed_count = countLabel Status.done s.image_items ∧
  ∀ e ∈ s.image_items, (e.2.status = Status.waiting ↔ e.2.statusLabel = Status.waiting)

lemma countLabel_nil (st : Status) : countLabel st [] = 0 := rfl

lemma countLabel_cons (st : Status) (e : String × Widget) (l : List (String × Widget)) :
    countLabel st (e :: l) =
      countLabel st l + (if e.2.statusLabel = st then 1 else 0) := by
  simp [countLabel, List.countP_cons]

lemma countLabel_append (st : Status) (l m : List (String × Widget)) :
    countLabel st (l ++ m) = countLabel st l + countLabel st m := by
  simp [countLabel, List.countP_append]

/-- The four displayed statuses partition the registry. -/
lemma countLabel_partition (l : List (String × Widget)) :
    countLabel Status.waiting l + countLabel Status.compressing l +
      countLabel Status.done l + countLabel Status.failed l = l.length := by
  induction l with
  | nil => simp [countLabel]
  | cons e l ih =>
    cases h : e.2.statusLabel <;>
      simp [countLabel_cons, h] <;> omega

lemma inv_initState : CountersInv initState := by
  refine ⟨rfl, rfl, rfl, ?_⟩
  intro e he
  simp [initState] at he

lemma inv_insert_image (s : WinState) (p : String) (h : CountersInv s) :
    CountersInv (insert_image s p) := by
  obtain ⟨h1, h2, h3, h4⟩ := h
  unfold insert_image
  split
  · exact ⟨h1, h2, h3, h4⟩
  · refine ⟨?_, ?_, ?_, ?_⟩
    · simp [countLabel_append, countLabel_cons, countLabel_nil, newWidget, h1]
    · simp [countLabel_append, countLabel_cons, countLabel_nil, newWidget, h2]
    · simp [countLabel_append, countLabel_cons, countLabel_nil, newWidget, h3]
    · intro e he
      rcases List.mem_append.mp he with he | he
      · exact h4 e he
      · simp at he
        simp [he, newWidget]

lemma inv_foldl_insert (paths : List String) :
    ∀ s : WinState, CountersInv s → CountersInv (paths.foldl insert_image s) := by
  induction paths with
  | nil => intro s h; exact h
  | cons p paths ih =>
    intro s h
    exact ih (insert_image s p) (inv_insert_image s p h)

lemma startMapped_nil : startMapped [] = [] := rfl

lemma startMapped_cons (e : String × Widget) (l : List (String × Widget)) :
    startMapped (e :: l) =
      (if e.2.status == Status.waiting then (e.1, widgetUpdateStatus Status.compressing e.2)
       else e) :: startMapped l := rfl

lemma waitingOf_nil : waitingOf [] = [] := rfl

lemma waitingOf_cons (e : String × Widget) (l : List (String × Widget)) :
    waitingOf (e :: l) =
      if e.2.status == Status.waiting then e :: waitingOf l else waitingOf l := by
  simp [waitingOf, List.filter_cons]

/-- Effect of the `start_compression` map on the per-status counts:
every waiting widget becomes compressing, nothing else moves. -/
lemma start_counts (l : List (String × Widget))
    (h4 : ∀ e ∈ l, (e.2.status = Status.waiting ↔ e.2.statusLabel = Status.waiting)) :
    countLabel Status.waiting (startMapped l) = 0 ∧
    countLabel Status.compressing (startMapped l) =
      countLabel Status.compressing l + countLabel Status.waiting l ∧
    countLabel Status.done (startMapped l) = countLabel Status.done l ∧
    countLabel Status.failed (startMapped l) = countLabel Status.failed l ∧
    (waitingOf l).length = countLabel Status.waiting l := by
  induction l with
  | nil => simp [countLabel_nil, startMapped_nil, waitingOf_nil]
  | cons e l ih =>
    have he := h4 e (by simp)
    obtain ⟨ih1, ih2, ih3, ih4, ih5⟩ := ih (fun x hx => h4 x (List.mem_cons_of_mem e hx))
    rw [startMapped_cons, waitingOf_cons]
    by_cases hw : e.2.status = Status.waiting
    · have hlab : e.2.statusLabel = Status.waiting := he.mp hw
      have hb : (e.2.status == Status.waiting) = true := by simp [hw]
      rw [hb]
      simp only [if_true, countLabel_cons, List.length_cons, widgetUpdateStatus, hlab,
        ih1, ih2, ih3, ih4, ih5]
      refine ⟨by simp, by simp; omega, by simp, by simp, by simp⟩
    · have hlab : e.2.statusLabel ≠ Status.waiting := fun hh => hw (he.mpr hh)
      have hb : (e.2.status == Status.waiting) = false := by simp [hw]
      rw [hb]
      simp only [Bool.false_eq_true, if_false, countLabel_cons,
        ih1, ih2, ih3, ih4, ih5, if_neg hlab]
      refine ⟨by simp, by omega, by trivial, by trivial, by omega⟩

/-- The `status`/`statusLabel` agreement on waiting survives
`start_compression`. -/
lemma start_inv4 (l : List (String × Widget))
    (h4 : ∀ e ∈ l, (e.2.status = Status.waiting ↔ e.2.statusLabel = Status.waiting)) :
    ∀ e ∈ startMapped l, (e.2.status = Status.waiting ↔ e.2.statusLabel = Status.waiting) := by
  intro e he
  rcases List.mem_map.mp he with ⟨a, ha, rfl⟩
  by_cases hw : a.2.status = Status.waiting
  · simp [hw, widgetUpdateStatus]
  · have hb : (a.2.status == Status.waiting) = false := by simp [hw]
    simp only [hb, Bool.false_eq_true, if_false]
    exact h4 a ha

lemma inv_start_compression (s : WinState) (h : CountersInv s) :
    CountersInv (start_compression s) := by
  obtain ⟨h1, h2, h3, h4⟩ := h
  obtain ⟨c1, c2, c3, c4, c5⟩ := start_counts s.image_items h4
  refine ⟨?_, ?_, ?_, ?_⟩
  · simp [start_compression, c1, c5, h1]
  · simp only [start_compression, c2, c5, h2]
    push_cast
    ring
  · simp [start_compression, c3, h3]
  · exact start_inv4 s.image_items h4

lemma inv_add_images (paths : List String) (s : WinState) (h : CountersInv s) :
    CountersInv (add_images paths s) := by
  unfold add_images
  split
  · exact h
  · exact inv_start_compression _ (inv_foldl_insert paths s h)

lemma lookupW_of_containsKey (p : String) (l : List (String × Widget))
    (h : containsKey p l = true) : ∃ w, lookupW p l = some w := by
  induction l with
  | nil => simp [containsKey] at h
  | cons e l ih =>
    by_cases he : e.1 = p
    · exact ⟨e.2, by simp [lookupW, he]⟩
    · simp [containsKey, he] at h
      rcases ih h with ⟨w, hw⟩
      exact ⟨w, by simp [lookupW, he, hw]⟩

lemma containsKey_of_lookupW (p : String) (l : List (String × Widget)) (w : Widget)
    (h : lookupW p l = some w) : containsKey p l = true := by
  induction l with
  | nil => simp [lookupW] at h
  | cons e l ih =>
    by_cases he : e.1 = p
    · simp [containsKey, he]
    · simp [lookupW, he] at h
      simp [containsKey, he, ih h]

lemma lookupW_mem (p : String) (l : List (String × Widget)) (w : Widget)
    (h : lookupW p l = some w) : (p, w) ∈ l := by
  induction l with
  | nil => simp [lookupW] at h
  | cons e l ih =>
    by_cases he : e.1 = p
    · simp only [lookupW, he, beq_self_eq_true, if_true, Option.some_inj] at h
      subst h
      have hpe : (p, e.2) = e := by rw [← he]
      rw [hpe]
      exact List.mem_cons_self e l
    · simp [lookupW, he] at h
      exact List.mem_cons_of_mem e (ih h)

/-- Count bookkeeping for an in-place widget update at a tracked key:
the matched widget's contribution is exchanged for that of its image. -/
lemma countLabel_updateEntry (p : String) (f : Widget → Widget)
    (l : List (String × Widget)) (w : Widget) (st : Status)
    (hw : lookupW p l = some w) :
    (countLabel st (updateEntry p f l) : ℤ) =
      (countLabel st l : ℤ) + (if (f w).statusLabel = st then 1 else 0) -
        (if w.statusLabel = st then 1 else 0) := by
  induction l with
  | nil => simp [lookupW] at hw
  | cons e l ih =>
    by_cases he : e.1 = p
    · have hb : (e.1 == p) = true := by simp [he]
      simp only [lookupW, hb, if_true, Option.some_inj] at hw
      subst hw
      simp only [updateEntry, hb, if_true, countLabel_cons]
      push_cast
      ring
    · have hb : (e.1 == p) = false := by simp [he]
      simp only [lookupW, hb, Bool.false_eq_true, if_false] at hw
      simp only [updateEntry, hb, Bool.false_eq_true, if_false, countLabel_cons]
      have := ih hw
      push_cast at this ⊢
      omega

/-- Membership after an in-place update: either an untouched entry, or
the image of the looked-up widget under the update. -/
lemma mem_updateEntry (p : String) (f : Widget → Widget)
    (l : List (String × Widget)) (e : String × Widget)
    (he : e ∈ updateEntry p f l) :
    e ∈ l ∨ ∃ w, lookupW p l = some w ∧ e = (p, f w) := by
  induction l with
  | nil => simp [updateEntry] at he
  | cons a l ih =>
    by_cases ha : a.1 = p
    · have hb : (a.1 == p) = true := by simp [ha]
      simp only [updateEntry, hb, if_true] at he
      rcases List.mem_cons.mp he with h | h
      · right
        exact ⟨a.2, by simp [lookupW, hb], by rw [h, ha]⟩
      · exact Or.inl (List.mem_cons_of_mem a h)
    · have hb : (a.1 == p) = false := by simp [ha]
      simp only [updateEntry, hb, Bool.false_eq_true, if_false] at he
      rcases List.mem_cons.mp he with h | h
      · exact Or.inl (by simp [h])
      · rcases ih h with h' | ⟨w, hw, hew⟩
        · exact Or.inl (List.mem_cons_of_mem a h')
        · right
          exact ⟨w, by simp [lookupW, hb, hw], hew⟩

lemma inv_handle_compress_finished (s : WinState) (p : String) (r : Option CompressResult)
    (h : CountersInv s)
    (hg : lookupW p s.image_items = none ∨
      ∃ w, lookupW p s.image_items = some w ∧ w.statusLabel = Status.compressing) :
    CountersInv (handle_compress_finished p r s) := by
  obtain ⟨h1, h2, h3, h4⟩ := h
  unfold handle_compress_finished
  split
  case isFalse => exact ⟨h1, h2, h3, h4⟩
  case isTrue hc =>
    rcases hg with hg | ⟨w, hw, hlab⟩
    · rcases lookupW_of_containsKey p s.image_items hc with ⟨w, hw⟩
      rw [hg] at hw
      cases hw
    · have hmem := lookupW_mem p s.image_items w hw
      have hstat : w.status ≠ Status.waiting := by
        intro hws
        have := (h4 (p, w) hmem).mp hws
        rw [hlab] at this
        cases this
      cases r with
      | some res =>
        refine ⟨?_, ?_, ?_, ?_⟩
        · rw [countLabel_updateEntry p _ s.image_items w Status.waiting hw]
          simp [widgetUpdateResult, hlab, h1]
        · rw [countLabel_updateEntry p _ s.image_items w Status.compressing hw]
          simp [widgetUpdateResult, hlab, h2]
        · rw [countLabel_updateEntry p _ s.image_items w Status.done hw]
          simp [widgetUpdateResult, hlab, h3]
        · intro e he
          rcases mem_updateEntry p _ s.image_items e he with he' | ⟨w', hw', rfl⟩
          · exact h4 e he'
          · rw [hw] at hw'
            cases hw'
            simp [widgetUpdateResult, hstat]
      | none =>
        refine ⟨?_, ?_, ?_, ?_⟩
        · rw [countLabel_updateEntry p _ s.image_items w Status.waiting hw]
          simp [widgetUpdateStatus, hlab, h1]
        · rw [countLabel_updateEntry p _ s.image_items w Status.compressing hw]
          simp [widgetUpdateStatus, hlab, h2]
        · rw [countLabel_updateEntry p _ s.image_items w Status.done hw]
          simp [widgetUpdateStatus, hlab, h3]
        · intro e he
          rcases mem_updateEntry p _ s.image_items e he with he' | ⟨w', hw', rfl⟩
          · exact h4 e he'
          · rw [hw] at hw'
            cases hw'
            simp [widgetUpdateStatus]

lemma inv_update_compress_progress (s : WinState) (p : String) (v : ℕ)
    (h : CountersInv s) : CountersInv (update_compress_progress p v s) := by
  obtain ⟨h1, h2, h3, h4⟩ := h
  unfold update_compress_progress
  split
  case isFalse => exact ⟨h1, h2, h3, h4⟩
  case isTrue hc =>
    rcases lookupW_of_containsKey p s.image_items hc with ⟨w, hw⟩
    refine ⟨?_, ?_, ?_, ?_⟩
    · rw [countLabel_updateEntry p _ s.image_items w Status.waiting hw]
      simp [widgetUpdateProgress, h1]
    · rw [countLabel_updateEntry p _ s.image_items w Status.compressing hw]
      simp [widgetUpdateProgress, h2]
    · rw [countLabel_updateEntry p _ s.image_items w Status.done hw]
      simp [widgetUpdateProgress, h3]
    · intro e he
      rcases mem_updateEntry p _ s.image_items e he with he' | ⟨w', hw', rfl⟩
      · exact h4 e he'
      · rw [hw] at hw'
        cases hw'
        simpa [widgetUpdateProgress] using h4 (p, w) (lookupW_mem p s.image_items w hw)

lemma inv_clear_all (s : WinState) : CountersInv (clear_all s) := by
  refine ⟨rfl, rfl, rfl, ?_⟩
  intro e he
  simp [clear_all] at he

/-- The counter invariant holds in every reachable window state. -/
lemma reachable_countersInv (s : WinState) (h : Reachable s) : CountersInv s := by
  induction h with
  | init => exact inv_initState
  | step hr hs ih =>
    cases hs with
    | add paths => exact inv_add_images paths _ ih
    | finish p r hg => exact inv_handle_compress_finished _ p r ih hg
    | progress p v => exact inv_update_compress_progress _ p v ih
    | clear => exact inv_clear_all _

/-- No widget is left with the "等待中" attribute.  Every `add_images`
invocation ends by starting all waiting tasks, so between event-loop
turns this always holds. -/
def NoWaiting (s : WinState) : Prop :=
  ∀ e ∈ s.image_items, e.2.status ≠ Status.waiting

lemma noWaiting_startMapped (l : List (String × Widget)) :
    ∀ e ∈ startMapped l, e.2.status ≠ Status.waiting := by
  intro e he
  rcases List.mem_map.mp he with ⟨a, _, rfl⟩
  by_cases hw : a.2.status = Status.waiting
  · simp [hw, widgetUpdateStatus]
  · simp [hw]

/-- Between slot invocations a reachable state has no waiting widget:
`add_images` drains the waiting set it creates in the same slot. -/
lemma reachable_noWaiting (s : WinState) (h : Reachable s) : NoWaiting s := by
  induction h with
  | init => intro e he; simp [initState] at he
  | step hr hs ih =>
    cases hs with
    | add paths =>
      intro e he
      unfold add_images at he
      split at he
      · exact ih e he
      · exact noWaiting_startMapped _ e he
    | finish p r hg =>
      intro e he
      unfold handle_compress_finished at he
      split at he
      case isFalse => exact ih e he
      case isTrue hc =>
        cases r with
        | some res =>
          simp only at he
          rcases mem_updateEntry p _ _ e he with he' | ⟨w, hw, rfl⟩
          · exact ih e he'
          · simpa [widgetUpdateResult] using ih (p, w) (lookupW_mem p _ w hw)
        | none =>
          simp only at he
          rcases mem_updateEntry p _ _ e he with he' | ⟨w, hw, rfl⟩
          · exact ih e he'
          · simp [widgetUpdateStatus]
    | progress p v =>
      intro e he
      unfold update_compress_progress at he
      split at he
      case isFalse => exact ih e he
      case isTrue hc =>
        simp only at he
        rcases mem_updateEntry p _ _ e he with he' | ⟨w, hw, rfl⟩
        · exact ih e he'
        · simpa [widgetUpdateProgress] using ih (p, w) (lookupW_mem p _ w hw)
    | clear =>
      intro e he
      simp [clear_all] at he

lemma startMapped_id (l : List (String × Widget))
    (h : ∀ e ∈ l, e.2.status ≠ Status.waiting) : startMapped l = l := by
  induction l with
  | nil => rfl
  | cons e l ih =>
    have hb : (e.2.status == Status.waiting) = false := by simp [h e (by simp)]
    rw [startMapped_cons, hb]
    simp [ih (fun x hx => h x (List.mem_cons_of_mem e hx))]

lemma waitingOf_eq_nil (l : List (String × Widget))
    (h : ∀ e ∈ l, e.2.status ≠ Status.waiting) : waitingOf l = [] := by
  induction l with
  | nil => rfl
  | cons e l ih =>
    have hb : (e.2.status == Status.waiting) = false := by simp [h e (by simp)]
    rw [waitingOf_cons, hb]
    simp [ih (fun x hx => h x (List.mem_cons_of_mem e hx))]

/-- With nothing waiting, `start_compression` finds no task to start and
changes nothing. -/
lemma start_compression_id (s : WinState) (h : NoWaiting s) :
    start_compression s = s := by
  obtain ⟨items, threads, comp, pc, prc, cc⟩ := s
  simp only [start_compression] at *
  rw [startMapped_id items h, waitingOf_eq_nil items h]
  simp

lemma countKey_append (q : String) (l m : List (String × Widget)) :
    countKey q (l ++ m) = countKey q l + countKey q m := by
  simp [countKey, List.countP_append]

lemma countKey_eq_zero (q : String) (l : List (String × Widget))
    (h : containsKey q l = false) : countKey q l = 0 := by
  induction l with
  | nil => rfl
  | cons e l ih =>
    simp only [containsKey, Bool.or_eq_false_iff] at h
    have h2 := ih h.2
    simp only [countKey, List.countP_cons, h.1] at h2 ⊢
    simp [h2]

lemma containsKey_append (q : String) (l m : List (String × Widget)) :
    containsKey q (l ++ m) = (containsKey q l || containsKey q m) := by
  induction l with
  | nil => simp [containsKey]
  | cons e l ih => simp [containsKey, ih, Bool.or_assoc]

/-- `start_compression` rewrites widgets in place, never keys. -/
lemma countKey_startMapped (q : String) (l : List (String × Widget)) :
    countKey q (startMapped l) = countKey q l := by
  induction l with
  | nil => rfl
  | cons e l ih =>
    rw [startMapped_cons]
    by_cases hw : (e.2.status == Status.waiting) = true
    · rw [hw]
      simp only [countKey, List.countP_cons] at ih ⊢
      simp [ih]
    · simp only [Bool.not_eq_true] at hw
      rw [hw]
      simp only [countKey, List.countP_cons] at ih ⊢
      simp [ih]

/-! ## Worker trace lemmas -/

lemma progressValues_append (l m : List Event) :
    progressValues (l ++ m) = progressValues l ++ progressValues m := by
  simp [progressValues]

lemma progressValues_map (path : String) (l : List ℕ) :
    progressValues (l.map fun i => Event.progress_update path i) = l := by
  induction l with
  | nil => rfl
  | cons a l ih => simp [progressValues] at ih ⊢; exact ih

lemma any_finished_map_progress (path : String) (l : List ℕ) :
    ((l.map fun i => Event.progress_update path i).any fun e =>
      match e with
      | Event.compress_finished _ (some _) => true
      | _ => false) = false := by
  induction l with
  | nil => rfl
  | cons a l ih => simp [ih]

/-- The complete emission/write behaviour of a successful run. -/
lemma run_success_trace (image_path : String) (osz cs : ℕ) (f : Format) (h0 : osz ≠ 0) :
    run image_path ⟨some osz, some f, true, cs⟩ =
      ((List.range 101).map (fun i => Event.progress_update image_path i) ++
        [Event.progress_update image_path 100,
         Event.compress_finished image_path (some
           { original_path := image_path, original_size := osz, compressed_size := cs,
             ratio := compression_ratio osz cs, out_path := outputPathS image_path,
             fmt := f })], [outputPathS image_path]) := by
  simp [run, h0]

lemma run_fail_getsize (image_path : String) (fmt : Option Format) (sv : Bool) (cs : ℕ) :
    run image_path ⟨none, fmt, sv, cs⟩ =
      ([Event.compress_finished image_path none], []) := by
  simp [run]

lemma run_fail_open (image_path : String) (osz : ℕ) (sv : Bool) (cs : ℕ) :
    run image_path ⟨some osz, none, sv, cs⟩ =
      ([Event.compress_finished image_path none], []) := by
  simp [run]

lemma run_fail_save (image_path : String) (osz cs : ℕ) (f : Format) :
    run image_path ⟨some osz, some f, false, cs⟩ =
      ((List.range 101).map (fun i => Event.progress_update image_path i) ++
        [Event.compress_finished image_path none], []) := by
  simp [run]

lemma run_fail_zero_division (image_path : String) (cs : ℕ) (f : Format) :
    run image_path ⟨some 0, some f, true, cs⟩ =
      ((List.range 101).map (fun i => Event.progress_update image_path i) ++
        [Event.compress_finished image_path none], [outputPathS image_path]) := by
  simp [run]

/-- A run succeeds exactly when no step of the `try` block raises. -/
lemma runSucceeds_eq_not_envFails (image_path : String) (env : Env) :
    runSucceeds image_path env = !envFails env := by
  obtain ⟨os, fmt, sv, cs⟩ := env
  cases os with
  | none => simp [runSucceeds, run_fail_getsize, envFails]
  | some osz =>
    cases fmt with
    | none => simp [runSucceeds, run_fail_open, envFails]
    | some f =>
      cases sv with
      | false =>
        simp [runSucceeds, run_fail_save, envFails, List.any_append,
          any_finished_map_progress]
      | true =>
        by_cases h0 : osz = 0
        · subst h0
          simp [runSucceeds, run_fail_zero_division, envFails, List.any_append,
            any_finished_map_progress]
        · simp [runSucceeds, run_success_trace image_path osz cs f h0, envFails, h0,
            List.any_append, any_finished_map_progress]

lemma getLast?_append_two (l : List Event) (a b : Event) :
    (l ++ [a, b]).getLast? = some b := by
  rw [show l ++ [a, b] = (l ++ [a]) ++ [b] by simp]
  exact List.getLast?_concat _

lemma dropLast_getLast?_append_two (l : List Event) (a b : Event) :
    (l ++ [a, b]).dropLast.getLast? = some a := by
  rw [show l ++ [a, b] = (l ++ [a]) ++ [b] by simp, List.dropLast_concat]
  exact List.getLast?_concat _

lemma countP_isFinished_map_progress (path : String) (l : List ℕ) :
    (l.map fun i => Event.progress_update path i).countP isFinished = 0 := by
  induction l with
  | nil => rfl
  | cons a l ih => simp [isFinished, List.countP_cons, ih]

lemma progressValues_pair (p : String) (v : ℕ) (r : Option CompressResult) :
    progressValues [Event.progress_update p v, Event.compress_finished p r] = [v] := rfl

lemma chain_le_progSeq : List.Chain' (· ≤ ·) (List.range 101 ++ [100]) := by
  apply List.Pairwise.chain'
  rw [List.pairwise_append]
  refine ⟨List.pairwise_le_range 101, by simp, ?_⟩
  intro x hx y hy
  rw [List.mem_range] at hx
  simp at hy
  omega

lemma not_chain_lt_progSeq : ¬ List.Chain' (· < ·) (List.range 101 ++ [100]) := by
  intro h
  rw [List.chain'_append] at h
  have h3 := h.2.2 100 (by rw [List.range_succ]; exact List.getLast?_concat _) 100 rfl
  exact lt_irrefl 100 h3

lemma head_progSeq : (List.range 101 ++ [100]).head? = some 0 := by
  rw [List.range_succ_eq_map]
  rfl

lemma last_progSeq : (List.range 101 ++ [100]).getLast? = some 100 :=
  List.getLast?_concat _

lemma mem_progSeq_le : ∀ v ∈ List.range 101 ++ [100], v ≤ 100 := by
  intro v hv
  rcases List.mem_append.mp hv with hv | hv
  · rw [List.mem_range] at hv
    omega
  · simp at hv
    omega

lemma length_progSeq : (List.range 101 ++ [100]).length = 102 := by
  simp

lemma count_progSeq : (List.range 101 ++ [100]).count 100 = 2 := by
  rw [List.count_append]
  rw [List.count_eq_one_of_mem (List.nodup_range 101) (by rw [List.mem_range]; omega)]
  rfl

/-- C2: for every task that completes successfully, the progress values
emitted by the worker form a monotonically non-decreasing sequence that
starts at 0, stays within 0–100 and ends at exactly 100, and the final
progress emission (value 100) occurs immediately before the terminal
outcome, which is the last signal of the run. -/
theorem claim_c2_progress_monotone (image_path : String) (env : Env)
    (h : runSucceeds image_path env = true) :
    List.Chain' (· ≤ ·) (progressValues (run image_path env).1) ∧
    (progressValues (run image_path env).1).head? = some 0 ∧
    (progressValues (run image_path env).1).getLast? = some 100 ∧
    (∀ v ∈ progressValues (run image_path env).1, v ≤ 100) ∧
    ∃ r, (run image_path env).1.getLast? =
        some (Event.compress_finished image_path (some r)) ∧
      (run image_path env).1.dropLast.getLast? =
        some (Event.progress_update image_path 100) := by
  rw [runSucceeds_eq_not_envFails] at h
  obtain ⟨os, fmt, sv, cs⟩ := env
  cases os with
  | none => simp [envFails] at h
  | some osz =>
    cases fmt with
    | none => simp [envFails] at h
    | some f =>
      cases sv with
      | false => simp [envFails] at h
      | true =>
        by_cases h0 : osz = 0
        · subst h0
          simp [envFails] at h
        · rw [run_success_trace image_path osz cs f h0]
          rw [progressValues_append, progressValues_map, progressValues_pair]
          exact ⟨chain_le_progSeq, head_progSeq, last_progSeq, mem_progSeq_le,
            _, getLast?_append_two _ _ _, dropLast_getLast?_append_two _ _ _⟩

/-- Demonstration environment of a run that succeeds. -/
def envDemo : Env :=
  { originalSize := some 1000
    imageFormat := some Format.JPEG
    saveOk := true
    compressedSize := 400 }

theorem claim_c2_progress_monotone_witness :
    runSucceeds "a.png" envDemo = true ∧
    List.Chain' (· ≤ ·) (progressValues (run "a.png" envDemo).1) :=
  ⟨by decide, (claim_c2_progress_monotone "a.png" envDemo (by decide)).1⟩

/-- C10: on every successful run the worker emits exactly 102 progress
signals: the values 0 through 100 in order, then one extra 100
immediately before the terminal outcome; the value 100 occurs exactly
twice, so the sequence is non-decreasing but not strictly increasing. -/
theorem claim_c10_trace_shape (image_path : String) (env : Env)
    (h : runSucceeds image_path env = true) :
    progressValues (run image_path env).1 = List.range 101 ++ [100] ∧
    (progressValues (run image_path env).1).length = 102 ∧
    (progressValues (run image_path env).1).count 100 = 2 ∧
    List.Chain' (· ≤ ·) (progressValues (run image_path env).1) ∧
    ¬ List.Chain' (· < ·) (progressValues (run image_path env).1) ∧
    ∃ r, (run image_path env).1 =
      (List.range 101).map (fun i => Event.progress_update image_path i) ++
        [Event.progress_update image_path 100,
         Event.compress_finished image_path (some r)] := by
  rw [runSucceeds_eq_not_envFails] at h
  obtain ⟨os, fmt, sv, cs⟩ := env
  cases os with
  | none => simp [envFails] at h
  | some osz =>
    cases fmt with
    | none => simp [envFails] at h
    | some f =>
      cases sv with
      | false => simp [envFails] at h
      | true =>
        by_cases h0 : osz = 0
        · subst h0
          simp [envFails] at h
        · rw [run_success_trace image_path osz cs f h0]
          rw [progressValues_append, progressValues_map, progressValues_pair]
          exact ⟨rfl, length_progSeq, count_progSeq, chain_le_progSeq,
            not_chain_lt_progSeq, _, rfl⟩

theorem claim_c10_trace_shape_witness :
    runSucceeds "a.png" envDemo = true ∧
    (progressValues (run "a.png" envDemo).1).length = 102 :=
  ⟨by decide, (claim_c10_trace_shape "a.png" envDemo (by decide)).2.1⟩

/-- C5: whenever a step of the worker body raises (missing source file,
unreadable image, codec/save failure, zero-size division), the exception
is caught and exactly one terminal signal is emitted, as the last signal
of the run, carrying `None` — hence no size, ratio or output-path
data. -/
theorem claim_c5_failure_delivered_as_data (image_path : String) (env : Env)
    (h : envFails env = true) :
    (run image_path env).1.countP isFinished = 1 ∧
    (run image_path env).1.getLast? = some (Event.compress_finished image_path none) := by
  obtain ⟨os, fmt, sv, cs⟩ := env
  cases os with
  | none =>
    rw [run_fail_getsize]
    exact ⟨by simp [isFinished], rfl⟩
  | some osz =>
    cases fmt with
    | none =>
      rw [run_fail_open]
      exact ⟨by simp [isFinished], rfl⟩
    | some f =>
      cases sv with
      | false =>
        rw [run_fail_save]
        refine ⟨?_, List.getLast?_concat _⟩
        simp [List.countP_append, countP_isFinished_map_progress, isFinished]
      | true =>
        have h0 : osz = 0 := by
          simp [envFails] at h
          exact h
        subst h0
        rw [run_fail_zero_division]
        refine ⟨?_, List.getLast?_concat _⟩
        simp [List.countP_append, countP_isFinished_map_progress, isFinished]

/-- Demonstration environment of a run whose source file is missing. -/
def envFailDemo : Env :=
  { originalSize := none
    imageFormat := none
    saveOk := false
    compressedSize := 0 }

theorem claim_c5_failure_delivered_as_data_witness :
    envFails envFailDemo = true ∧
    (run "a.png" envFailDemo).1.getLast? =
      some (Event.compress_finished "a.png" none) :=
  ⟨by decide, (claim_c5_failure_delivered_as_data "a.png" envFailDemo (by decide)).2⟩

instance (env : Env) : Decidable (envWf env) :=
  decidable_of_iff (env.originalSize = some 0 → env.imageFormat = none) Iff.rfl

/-- C7: over well-formed environments (a zero-byte file is never
openable as an image), a worker run writes exactly the single
deterministically named output file when it produces a success outcome,
and writes nothing at all when it produces a failure outcome. -/
theorem claim_c7_write_discipline (image_path : String) (env : Env) (hwf : envWf env) :
    (runSucceeds image_path env = true →
      (run image_path env).2 = [outputPathS image_path]) ∧
    (runSucceeds image_path env = false → (run image_path env).2 = []) := by
  obtain ⟨os, fmt, sv, cs⟩ := env
  cases os with
  | none =>
    refine ⟨?_, fun _ => by rw [run_fail_getsize]⟩
    intro h
    rw [runSucceeds_eq_not_envFails] at h
    simp [envFails] at h
  | some osz =>
    cases fmt with
    | none =>
      refine ⟨?_, fun _ => by rw [run_fail_open]⟩
      intro h
      rw [runSucceeds_eq_not_envFails] at h
      simp [envFails] at h
    | some f =>
      cases sv with
      | false =>
        refine ⟨?_, fun _ => by rw [run_fail_save]⟩
        intro h
        rw [runSucceeds_eq_not_envFails] at h
        simp [envFails] at h
      | true =>
        by_cases h0 : osz = 0
        · subst h0
          have hcontra : Env.imageFormat ⟨some 0, some f, true, cs⟩ = none := hwf rfl
          simp at hcontra
        · refine ⟨fun _ => by rw [run_success_trace image_path osz cs f h0], ?_⟩
          intro h
          rw [runSucceeds_eq_not_envFails] at h
          simp [envFails, h0] at h

theorem claim_c7_write_discipline_witness :
    envWf envDemo ∧ (run "a.png" envDemo).2 = [outputPathS "a.png"] :=
  ⟨by decide, (claim_c7_write_discipline "a.png" envDemo (by decide)).1 (by decide)⟩

lemma finished_not_mem_map_progress (p q : String) (r : Option CompressResult)
    (l : List ℕ) :
    Event.compress_finished p r ∉ l.map fun i => Event.progress_update q i := by
  simp

/-- C4: every success outcome the worker emits reports the compression
ratio `round((1 - compressedSize/originalSize) * 100, 2)` of its own
sizes, exactly as the specification's formula states; in particular an
original size of 1,000,000 bytes and a compressed size of 400,000 bytes
report a ratio of 60.00. -/
theorem claim_c4_ratio_formula :
    (∀ (image_path : String) (env : Env) (r : CompressResult),
      Event.compress_finished image_path (some r) ∈ (run image_path env).1 →
        r.ratio = specRatio r.original_size r.compressed_size) ∧
    compression_ratio 1000000 400000 = 60 := by
  constructor
  · intro image_path env r hmem
    obtain ⟨os, fmt, sv, cs⟩ := env
    cases os with
    | none =>
      rw [run_fail_getsize] at hmem
      simp at hmem
    | some osz =>
      cases fmt with
      | none =>
        rw [run_fail_open] at hmem
        simp at hmem
      | some f =>
        cases sv with
        | false =>
          rw [run_fail_save] at hmem
          simp at hmem
        | true =>
          by_cases h0 : osz = 0
          · subst h0
            rw [run_fail_zero_division] at hmem
            simp at hmem
          · rw [run_success_trace image_path osz cs f h0] at hmem
            simp only [List.mem_append, List.mem_cons] at hmem
            rcases hmem with hmem | hmem | hmem | hmem
            · exact absurd hmem (finished_not_mem_map_progress _ _ _ _)
            · cases hmem
            · rw [Event.compress_finished.injEq, Option.some_inj] at hmem
              obtain ⟨hmem1, hmem2⟩ := hmem
              subst hmem2
              rfl
            · cases hmem
  · norm_num [compression_ratio, pyRound2, pyRoundHalfEven]

theorem claim_c4_ratio_formula_witness :
    compression_ratio 1000 400 = specRatio 1000 400 := by
  have hm : Event.compress_finished "a.png" (some
      { original_path := "a.png", original_size := 1000, compressed_size := 400,
        ratio := compression_ratio 1000 400, out_path := outputPathS "a.png",
        fmt := Format.JPEG }) ∈ (run "a.png" envDemo).1 := by
    rw [show envDemo = ⟨some 1000, some Format.JPEG, true, 400⟩ from rfl,
      run_success_trace "a.png" 1000 400 Format.JPEG (by decide)]
    simp
  exact claim_c4_ratio_formula.1 "a.png" envDemo _ hm

/-- C9 as frozen is false at the boundary: with an original size of
1,000,000 bytes and a compressed size of 1,000,001 bytes the compressed
size exceeds the original, yet `round((1 - 1000001/1000000) * 100, 2)`
is `round(-0.0001, 2) = -0.0`, which is not negative. -/
theorem claim_c9_counterexample :
    1000000 < 1000001 ∧ ¬ compression_ratio 1000000 1000001 < 0 := by
  constructor
  · norm_num
  · norm_num [compression_ratio, pyRound2, pyRoundHalfEven]

lemma pyRoundHalfEven_nonpos (q : ℚ) (h : q < 0) : pyRoundHalfEven q ≤ 0 := by
  have hf : ⌊q⌋ ≤ -1 := by
    have hlt : ⌊q⌋ < 0 := Int.floor_lt.mpr (by exact_mod_cast h)
    omega
  simp only [pyRoundHalfEven]
  split_ifs <;> omega

/-- C9 amended: the reported ratio is not clamped to [0, 100]; whenever
the compressed size exceeds the original the pre-rounding percentage is
strictly negative and the reported (rounded) ratio is at most 0 — it is
strictly negative once the loss exceeds half of the final rounded digit
(for example 100 → 150 reports −50.00), but a marginal size increase
rounds to −0.0, which is not a negative value. -/
theorem claim_c9_amended :
    (∀ original_size compressed_size : ℕ, 0 < original_size →
      original_size < compressed_size →
      (1 - (compressed_size : ℚ) / (original_size : ℚ)) * 100 < 0 ∧
      compression_ratio original_size compressed_size ≤ 0) ∧
    compression_ratio 100 150 = -50 := by
  constructor
  · intro O C hO hC
    have hOpos : (0 : ℚ) < (O : ℚ) := by exact_mod_cast hO
    have hdiv : (1 : ℚ) < (C : ℚ) / (O : ℚ) :=
      (one_lt_div hOpos).mpr (by exact_mod_cast hC)
    have hneg : (1 - (C : ℚ) / (O : ℚ)) * 100 < 0 := by linarith
    refine ⟨hneg, ?_⟩
    unfold compression_ratio pyRound2
    have h1 : (1 - (C : ℚ) / (O : ℚ)) * 100 * 100 < 0 := by linarith
    have h2 := pyRoundHalfEven_nonpos _ h1
    have h3 : ((pyRoundHalfEven ((1 - (C : ℚ) / (O : ℚ)) * 100 * 100) : ℚ)) ≤ 0 := by
      exact_mod_cast h2
    exact div_nonpos_iff.mpr (Or.inr ⟨h3, by norm_num⟩)
  · norm_num [compression_ratio, pyRound2, pyRoundHalfEven]

theorem claim_c9_amended_witness :
    0 < 100 ∧ 100 < 150 ∧ compression_ratio 100 150 ≤ 0 :=
  ⟨by decide, by decide, (claim_c9_amended.1 100 150 (by decide) (by decide)).2⟩

/-! ## Output-path structure (claim C8) -/

lemma takeWhile_append_stop (p : Char → Bool) (xs : List Char)
    (h : ∀ x ∈ xs, p x = true) (y : Char) (hy : p y = false) (ys : List Char) :
    (xs ++ y :: ys).takeWhile p = xs := by
  induction xs with
  | nil => simp [List.takeWhile_cons, hy]
  | cons a xs ih =>
    have ha := h a (by simp)
    simp only [List.cons_append, List.takeWhile_cons, ha, if_true]
    rw [ih (fun x hx => h x (List.mem_cons_of_mem a hx))]

lemma dropWhile_append_stop (p : Char → Bool) (xs : List Char)
    (h : ∀ x ∈ xs, p x = true) (y : Char) (hy : p y = false) (ys : List Char) :
    (xs ++ y :: ys).dropWhile p = y :: ys := by
  induction xs with
  | nil => simp [List.dropWhile_cons, hy]
  | cons a xs ih =>
    have ha := h a (by simp)
    simp only [List.cons_append, List.dropWhile_cons, ha, if_true]
    exact ih (fun x hx => h x (List.mem_cons_of_mem a hx))

lemma all_ne_of_not_mem (ch : Char) (l : List Char) (h : ch ∉ l) :
    ∀ x ∈ l.reverse, (x != ch) = true := by
  intro x hx
  rw [List.mem_reverse] at hx
  simp only [bne_iff_ne, ne_eq]
  intro hxe
  exact h (hxe ▸ hx)

lemma basename_spec (A B : List Char) (hB : '/' ∉ B) :
    basename (A ++ '/' :: B) = B := by
  unfold basename
  rw [List.reverse_append, List.reverse_cons, List.append_assoc, List.singleton_append]
  rw [takeWhile_append_stop _ B.reverse (all_ne_of_not_mem '/' B hB) '/' rfl A.reverse]
  exact List.reverse_reverse B

lemma dirnameRaw_spec (A B : List Char) (hB : '/' ∉ B) :
    dirnameRaw (A ++ '/' :: B) = A ++ ['/'] := by
  unfold dirnameRaw
  rw [List.reverse_append, List.reverse_cons, List.append_assoc, List.singleton_append]
  rw [dropWhile_append_stop _ B.reverse (all_ne_of_not_mem '/' B hB) '/' rfl A.reverse]
  rw [List.reverse_cons, List.reverse_reverse]

lemma dirname_spec (d' : List Char) (c : Char) (B : List Char)
    (hc : c ≠ '/') (hB : '/' ∉ B) :
    dirname ((d' ++ [c]) ++ '/' :: B) = d' ++ [c] := by
  have hany : ((d' ++ [c]) ++ ['/']).any (fun x => x != '/') = true := by
    simp only [List.any_append, List.any_cons, List.any_nil, Bool.or_eq_true]
    left
    right
    simp [hc]
  simp only [dirname, dirnameRaw_spec _ _ hB, hany, if_true]
  rw [List.reverse_append, List.reverse_append]
  simp only [List.reverse_cons, List.reverse_nil, List.nil_append, List.cons_append,
    List.singleton_append]
  rw [List.dropWhile_cons]
  simp only [beq_self_eq_true, if_true]
  rw [List.dropWhile_cons]
  have hcb : (c == '/') = false := by simp [hc]
  rw [hcb]
  simp

lemma splitext_spec (n e : List Char) (hn : n ≠ []) (hnD : '.' ∉ n) (heD : '.' ∉ e) :
    splitext (n ++ '.' :: e) = (n, '.' :: e) := by
  have hrev : (n ++ '.' :: e).reverse = e.reverse ++ '.' :: n.reverse := by
    rw [List.reverse_append, List.reverse_cons, List.append_assoc, List.singleton_append]
  have htw : (n ++ '.' :: e).reverse.takeWhile (fun c => c != '.') = e.reverse := by
    rw [hrev]
    exact takeWhile_append_stop _ e.reverse (all_ne_of_not_mem '.' e heD) '.' rfl n.reverse
  simp only [splitext, htw]
  have hlen : ¬ e.reverse.length = (n ++ '.' :: e).length := by
    simp only [List.length_reverse, List.length_append, List.length_cons]
    cases n with
    | nil => exact absurd rfl hn
    | cons a l =>
      simp only [List.length_cons]
      omega
  rw [if_neg hlen]
  have hidx : (n ++ '.' :: e).length - e.reverse.length - 1 = n.length := by
    simp only [List.length_reverse, List.length_append, List.length_cons]
    omega
  rw [hidx, List.take_left, List.drop_left]
  have hstem : (n.any fun x => x != '.') = true := by
    cases n with
    | nil => exact absurd rfl hn
    | cons a l =>
      simp only [List.any_cons, Bool.or_eq_true]
      left
      have ha : a ≠ '.' := fun hh => hnD (by simp [hh])
      simp [ha]
  rw [if_pos hstem]

lemma joinPath_spec (A b : List Char) (hA : A ≠ []) (hAl : A.getLast? ≠ some '/')
    (hb : b.head? ≠ some '/') :
    joinPath A b = A ++ '/' :: b := by
  unfold joinPath
  rw [if_neg hb, if_neg ?_]
  intro hor
  rcases hor with h | h
  · exact hA h
  · exact hAl h

/-- C8: for every input path of the form `<dir>/<name>.<ext>` (with a
nonempty name containing neither slash nor dot, an extension containing
neither, and a directory not ending in a slash), the worker's output
path is exactly `<dir>/<name>_compressed.<ext>` — the input's directory
joined with the base name plus the suffix `_compressed` before the
original extension; the computation is a pure function of the input, so
colliding runs pick the identical output name (no uniquification). -/
theorem claim_c8_output_path (d' : List Char) (c : Char) (n e : List Char)
    (hc : c ≠ '/') (hn : n ≠ []) (hnS : '/' ∉ n) (hnD : '.' ∉ n)
    (heS : '/' ∉ e) (heD : '.' ∉ e) :
    output_path ((d' ++ [c]) ++ '/' :: (n ++ '.' :: e)) =
      (d' ++ [c]) ++ '/' :: (n ++ "_compressed".toList ++ '.' :: e) := by
  have hB : '/' ∉ n ++ '.' :: e := by
    intro hmem
    rcases List.mem_append.mp hmem with h | h
    · exact hnS h
    · rcases List.mem_cons.mp h with h | h
      · cases h
      · exact heS h
  simp only [output_path, basename_spec _ _ hB, dirname_spec _ _ _ hc hB,
    splitext_spec _ _ hn hnD heD]
  rw [joinPath_spec _ _ (by simp) ?_ ?_]
  · rw [List.getLast?_concat]
    intro hh
    exact hc (Option.some_inj.mp hh)
  · cases n with
    | nil => exact absurd rfl hn
    | cons a l =>
      intro hh
      simp only [List.cons_append, List.head?_cons, Option.some_inj] at hh
      exact hnS (by simp [hh])

theorem claim_c8_output_path_witness :
    output_path (("/home/use".toList ++ ['r']) ++ '/' ::
        ("photo".toList ++ '.' :: "jpg".toList)) =
      ("/home/use".toList ++ ['r']) ++ '/' ::
        ("photo".toList ++ "_compressed".toList ++ '.' :: "jpg".toList) :=
  claim_c8_output_path "/home/use".toList 'r' "photo".toList "jpg".toList
    (by decide) (by decide) (by decide) (by decide) (by decide) (by decide)

/-! ## Registry claims -/

/-- C1: in every reachable window state the three maintained counters
equal the number of tasks displayed in the corresponding state, and
together with the (derived) count of Failed tasks they sum to the total
number of tracked tasks.  Each slot updates the counters in the same
step as the displayed state transition, including the Failed case
(which decrements `processing_count`); this is what the inductive
invariant behind `reachable_countersInv` checks transition by
transition. -/
theorem claim_c1_counter_consistency (s : WinState) (h : Reachable s) :
    s.pending_count = countLabel Status.waiting s.image_items ∧
    s.processing_count = countLabel Status.compressing s.image_items ∧
    s.completed_count = countLabel Status.done s.image_items ∧
    s.pending_count + s.processing_count + s.completed_count +
      countLabel Status.failed s.image_items = s.image_items.length := by
  obtain ⟨h1, h2, h3, _⟩ := reachable_countersInv s h
  refine ⟨h1, h2, h3, ?_⟩
  rw [h1, h2, h3]
  have hp := countLabel_partition s.image_items
  omega

/-- A success outcome used to drive the demonstration states. -/
def demoResult : CompressResult :=
  { original_path := "a"
    original_size := 1000
    compressed_size := 400
    ratio := 60
    out_path := "a_compressed"
    fmt := Format.JPEG }

/-- Window state after submitting the single path "a". -/
def demoState1 : WinState := add_images ["a"] initState

/-- Window state after the worker for "a" reports success. -/
def demoState2 : WinState := handle_compress_finished "a" (some demoResult) demoState1

theorem claim_c1_counter_consistency_witness :
    Reachable demoState2 ∧
    demoState2.completed_count = countLabel Status.done demoState2.image_items := by
  have hr : Reachable demoState2 :=
    Reachable.step (Reachable.step Reachable.init (Step.add initState ["a"]))
      (Step.finish demoState1 "a" (some demoResult)
        (Or.inr ⟨widgetUpdateStatus Status.compressing newWidget, by decide, by decide⟩))
  exact ⟨hr, (claim_c1_counter_consistency demoState2 hr).2.2.1⟩

lemma insert_image_contains (s : WinState) (p : String)
    (h : containsKey p s.image_items = true) : insert_image s p = s := by
  simp [insert_image, h]

lemma insert_image_new_items (s : WinState) (p : String)
    (h : containsKey p s.image_items = false) :
    (insert_image s p).image_items = s.image_items ++ [(p, newWidget)] := by
  simp [insert_image, h]

instance (s : WinState) : Decidable (NoWaiting s) :=
  decidable_of_iff (∀ e ∈ s.image_items, e.2.status ≠ Status.waiting) Iff.rfl

/-- C3: submitting an already-tracked path again is a complete no-op on
the window state (whatever state the task is in, including Failed: the
`file_path not in self.image_items` guard filters it before any widget
or counter is touched), and submitting a fresh path twice in one call
creates exactly one task for it.  The no-waiting hypothesis holds in
every reachable state (`reachable_noWaiting`), because `add_images`
starts every task it admits within the same slot. -/
theorem claim_c3_idempotent_submission (s : WinState) (p q : String)
    (hp : containsKey p s.image_items = true) (hnw : NoWaiting s)
    (hq : containsKey q s.image_items = false) :
    add_images [p] s = s ∧
    countKey q (add_images [q, q] s).image_items = 1 := by
  constructor
  · unfold add_images
    rw [if_neg (by simp)]
    simp only [List.foldl_cons, List.foldl_nil]
    rw [insert_image_contains s p hp]
    exact start_compression_id s hnw
  · unfold add_images
    rw [if_neg (by simp)]
    simp only [List.foldl_cons, List.foldl_nil]
    have hit : (insert_image s q).image_items = s.image_items ++ [(q, newWidget)] :=
      insert_image_new_items s q hq
    have h2 : containsKey q (insert_image s q).image_items = true := by
      rw [hit, containsKey_append]
      simp [containsKey]
    rw [insert_image_contains _ _ h2]
    show countKey q (startMapped (insert_image s q).image_items) = 1
    rw [countKey_startMapped, hit, countKey_append, countKey_eq_zero q _ hq]
    simp [countKey, List.countP_cons]

/-- A state holding one Failed task, as left behind by a failed run. -/
def demoFailedState : WinState :=
  { image_items := [("a",
      { status := Status.failed
        statusLabel := Status.failed
        progress := 37
        compressed_size := 0
        compress_ratio := 0
        fmt := none })]
    compress_threads := ["a"]
    completed_images := []
    pending_count := 0
    processing_count := 0
    completed_count := 0 }

theorem claim_c3_idempotent_submission_witness :
    containsKey "a" demoFailedState.image_items = true ∧
    NoWaiting demoFailedState ∧
    containsKey "b" demoFailedState.image_items = false ∧
    add_images ["a"] demoFailedState = demoFailedState :=
  ⟨by decide, by decide, by decide,
    (claim_c3_idempotent_submission demoFailedState "a" "b"
      (by decide) (by decide) (by decide)).1⟩

/-- C6: after `clear_all` the registry holds no tasks, all three
aggregate counters are zero and the completed-outcome list is empty; a
later progress or terminal signal referencing any (necessarily removed)
path falls through the `in self.image_items` guard and changes nothing —
and the handlers are total functions of the state, so no error is
raised either. -/
theorem claim_c6_clear_all_resets (s : WinState) (p : String) (v : ℕ)
    (r : Option CompressResult) :
    (clear_all s).image_items = [] ∧
    (clear_all s).pending_count = 0 ∧
    (clear_all s).processing_count = 0 ∧
    (clear_all s).completed_count = 0 ∧
    (clear_all s).completed_images = [] ∧
    update_compress_progress p v (clear_all s) = clear_all s ∧
    handle_compress_finished p r (clear_all s) = clear_all s := by
  refine ⟨rfl, rfl, rfl, rfl, rfl, ?_, ?_⟩
  · simp [update_compress_progress, clear_all, containsKey]
  · simp [handle_compress_finished, clear_all, containsKey]
